import Mathlib

/-!
Shallow embedding of the orchepy workflow/event orchestration core
(src/engine/retry.rs, src/engine/matcher.rs, src/engine/automation_executor.rs,
src/engine/executor.rs, src/api/cases/automation_handler.rs,
src/api/cases/move_case.rs) together with theorems checking the
natural-language specification against it.

Modelling conventions:
* serde_json values are modelled by the inductive `Json`; JSON numbers are
  modelled by `Rat` (the code compares numbers through `as_f64`; rational
  arithmetic is the idealisation of those comparisons, no claim here depends
  on float rounding).  Objects are association lists in insertion order,
  encoded as the mutual inductive `JsonObj` so that equality is derivable.
* u64 / u32 machine integers are `Nat`; where overflow matters
  (`2u64.pow` in `calculate_delay`) the wrap is written explicitly as
  `% 2 ^ 64` (release-profile semantics) and saturating multiplication as a
  `min` with `u64Max`.
* Wall-clock instants are abstract `Nat` ticks; `NOW()` is a `now : Nat`
  parameter.  UUIDs are `String`s.
* Outbound HTTP is abstracted by an oracle `send : String → String → Json →
  Except String Json` (url, upper-cased method, attached body); the oracle is
  a pure function, so every retry of the same request observes the same
  outcome.  Custom headers are passed through verbatim by the code and do not
  influence control flow, so they are not given to the oracle.
* The database is modelled as reliable state: individual statement failures
  and transaction begin/commit failures (the only sources of 500 inside
  `apply_automation_modifications`) do not occur in the model.
-/

mutual

/-- serde_json::Value with numbers idealised as rationals. -/
inductive Json where
  | null : Json
  | bool (b : Bool) : Json
  | num (n : Rat) : Json
  | str (s : String) : Json
  | arr (xs : JsonList) : Json
  | obj (fields : JsonObj) : Json
deriving DecidableEq

/-- A list of JSON values (Vec<Value>). -/
inductive JsonList where
  | nil : JsonList
  | cons (hd : Json) (tl : JsonList) : JsonList
deriving DecidableEq

/-- An object's field list (Map<String, Value>, in insertion order). -/
inductive JsonObj where
  | nil : JsonObj
  | cons (key : String) (val : Json) (tl : JsonObj) : JsonObj
deriving DecidableEq

end

namespace JsonObj

/-- Object lookup: first binding wins (serde maps have unique keys). -/
def find : JsonObj → String → Option Json
  | nil, _ => none
  | cons k v tl, key => if k = key then some v else find tl key

/-- The entries of an object as a Lean list, for stating properties. -/
def entries : JsonObj → List (String × Json)
  | nil => []
  | cons k v tl => (k, v) :: entries tl

end JsonObj

namespace Json

/-- Value::get on an object. -/
def get : Json → String → Option Json
  | obj fields, key => fields.find key
  | _, _ => none

/-- Value::as_object(). -/
def asObject : Json → Option JsonObj
  | obj fields => some fields
  | _ => none

/-- Value::as_f64(): succeeds exactly on numbers. -/
def asNum : Json → Option Rat
  | num n => some n
  | _ => none

/-- Value::as_str(). -/
def asStr : Json → Option String
  | str s => some s
  | _ => none

/-- Value::is_null(). -/
def isNull : Json → Bool
  | null => true
  | _ => false

end Json

/-! ## Retry executor (src/engine/retry.rs) -/

inductive BackoffStrategy where
  | fixed
  | exponential
deriving Repr, DecidableEq

structure RetryConfig where
  max_attempts : Nat
  backoff : BackoffStrategy
  initial_delay_ms : Nat
deriving Repr, DecidableEq

def u64Max : Nat := 2 ^ 64 - 1

/-- RetryExecutor::calculate_delay.  `2u64.pow (attempt-1)` wraps modulo
2^64 (release profile); `saturating_mul` is `min` with `u64Max`; the final
`.min 60_000` is the 60 s cap. -/
def calculate_delay (config : RetryConfig) (attempt : Nat) : Nat :=
  let base_delay := config.initial_delay_ms
  let delay_ms :=
    match config.backoff with
    | .fixed => base_delay
    | .exponential =>
        let multiplier := 2 ^ (attempt - 1) % 2 ^ 64
        min (base_delay * multiplier) u64Max
  min delay_ms 60000

/-- The loop body of RetryExecutor::execute.  The source iterates `attempt`
from 1 and leaves the loop when the operation succeeds or
`attempt >= max_attempts`; here `remaining = max_attempts - attempt` counts
the retries still allowed, so the loop is structural.  The operation is a
pure function from the attempt number (1-based) to that invocation's result;
the returned `Nat` is the attempt index at which the loop stopped, i.e. the
total number of invocations made. -/
def retryGo {T E : Type} (op : Nat → Except E T) (attempt remaining : Nat) :
    Except E T × Nat :=
  match op attempt with
  | .ok v => (.ok v, attempt)
  | .error e =>
    match remaining with
    | 0 => (.error e, attempt)
    | r + 1 => retryGo op (attempt + 1) r

/-- RetryExecutor::execute, returning the result together with the number of
invocations of the operation. -/
def retryExecute {T E : Type} (max_attempts : Nat) (op : Nat → Except E T) :
    Except E T × Nat :=
  retryGo op 1 (max_attempts - 1)

/-! ### Retry executor lemmas -/

theorem retryGo_count_le {T E : Type} (op : Nat → Except E T)
    (attempt remaining : Nat) :
    (retryGo op attempt remaining).2 ≤ attempt + remaining := by
  induction remaining generalizing attempt with
  | zero =>
    unfold retryGo
    cases h : op attempt <;> simp [h]
  | succ r ih =>
    unfold retryGo
    cases h : op attempt with
    | ok v => simp [h]
    | error e =>
      simp only [h]
      have := ih (attempt + 1)
      omega

theorem retryGo_all_fail {T E : Type} (op : Nat → Except E T)
    (attempt remaining : Nat)
    (h : ∀ j, attempt ≤ j → j ≤ attempt + remaining → ∃ e, op j = .error e) :
    retryGo op attempt remaining = (op (attempt + remaining), attempt + remaining) := by
  induction remaining generalizing attempt with
  | zero =>
    obtain ⟨e, he⟩ := h attempt le_rfl (by omega)
    unfold retryGo
    simp [he]
  | succ r ih =>
    obtain ⟨e, he⟩ := h attempt le_rfl (by omega)
    unfold retryGo
    simp only [he]
    have hrec := ih (attempt + 1) (fun j h1 h2 => h j (by omega) (by omega))
    have harith : attempt + 1 + r = attempt + (r + 1) := by omega
    rw [harith] at hrec
    exact hrec

theorem retryGo_first_success {T E : Type} (op : Nat → Except E T)
    (attempt remaining k : Nat) (v : T)
    (hk1 : attempt ≤ k) (hk2 : k ≤ attempt + remaining)
    (hfail : ∀ j, attempt ≤ j → j < k → ∃ e, op j = .error e)
    (hok : op k = .ok v) :
    retryGo op attempt remaining = (.ok v, k) := by
  induction remaining generalizing attempt with
  | zero =>
    have hk : k = attempt := by omega
    subst hk
    unfold retryGo
    simp [hok]
  | succ r ih =>
    by_cases hc : k = attempt
    · subst hc
      unfold retryGo
      simp [hok]
    · obtain ⟨e, he⟩ := hfail attempt le_rfl (by omega)
      unfold retryGo
      simp only [he]
      exact ih (attempt + 1) (by omega) (by omega)
        (fun j h1 h2 => hfail j (by omega) h2)

/-- C3: for every retry configuration with `max_attempts = N ≥ 1` and every
operation, the retry executor invokes the operation exactly `k` times when the
first success occurs on attempt `k ≤ N`, exactly `N` times (returning the last
error) when every attempt fails, and never more than `N` times. -/
theorem C3_retry_invocations {T E : Type} (N : Nat) (hN : 1 ≤ N)
    (op : Nat → Except E T) :
    (∀ k v, 1 ≤ k → k ≤ N → (∀ j, 1 ≤ j → j < k → ∃ e, op j = .error e) →
        op k = .ok v → retryExecute N op = (.ok v, k))
  ∧ ((∀ j, 1 ≤ j → j ≤ N → ∃ e, op j = .error e) →
        retryExecute N op = (op N, N))
  ∧ (retryExecute N op).2 ≤ N := by
  refine ⟨?_, ?_, ?_⟩
  · intro k v hk1 hk2 hfail hok
    unfold retryExecute
    exact retryGo_first_success op 1 (N - 1) k v hk1 (by omega)
      (fun j h1 h2 => hfail j h1 h2) hok
  · intro hfail
    unfold retryExecute
    have hrec := retryGo_all_fail op 1 (N - 1)
      (fun j h1 h2 => hfail j h1 (by omega))
    have harith : 1 + (N - 1) = N := by omega
    rw [harith] at hrec
    exact hrec
  · unfold retryExecute
    have := retryGo_count_le op 1 (N - 1)
    omega

/-- A concrete operation failing on the first attempt and succeeding on the
second. -/
def retryOpEx : Nat → Except String Nat :=
  fun j => if j = 1 then .error "boom" else .ok 7

/-- Witness for C3 at `max_attempts = 3` with success on attempt 2. -/
theorem C3_retry_invocations_witness :
    retryExecute 3 retryOpEx = (.ok 7, 2) ∧ (retryExecute 3 retryOpEx).2 ≤ 3 := by
  have h := C3_retry_invocations 3 (by decide) retryOpEx
  refine ⟨h.1 2 7 (by decide) (by decide) ?_ (by rfl), h.2.2⟩
  intro j h1 h2
  have hj : j = 1 := by omega
  subst hj
  exact ⟨"boom", by rfl⟩

/-- C4 counterexample: at attempt `n = 65` the exponential multiplier
`2u64.pow 64` wraps to 0, so the computed delay is 0, while the claimed value
`initial_delay_ms · 2^(n-1)` capped at 60 000 ms would be 60 000. -/
theorem C4_counterexample :
    calculate_delay ⟨3, .exponential, 1000⟩ 65 = 0 ∧
    min (1000 * 2 ^ (65 - 1)) 60000 = 60000 := by
  constructor
  · show min (min (1000 * (2 ^ 64 % 2 ^ 64)) u64Max) 60000 = 0
    norm_num
  · norm_num

/-- C4 (amended): for every attempt `n` with `1 ≤ n ≤ 64` (so that the u64
power does not overflow) the delay is `initial_delay_ms` capped at 60 000 ms
for the fixed strategy and `initial_delay_ms · 2^(n-1)` capped at 60 000 ms
for the exponential strategy. -/
theorem C4_delay_formula (config : RetryConfig) (n : Nat)
    (h1 : 1 ≤ n) (h2 : n ≤ 64) :
    calculate_delay config n =
      match config.backoff with
      | .fixed => min config.initial_delay_ms 60000
      | .exponential => min (config.initial_delay_ms * 2 ^ (n - 1)) 60000 := by
  unfold calculate_delay
  cases hb : config.backoff with
  | fixed => simp
  | exponential =>
    simp only
    have hpow : 2 ^ (n - 1) < 2 ^ 64 := by
      calc 2 ^ (n - 1) ≤ 2 ^ 63 := Nat.pow_le_pow_right (by norm_num) (by omega)
      _ < 2 ^ 64 := by norm_num
    rw [Nat.mod_eq_of_lt hpow]
    have hM : (60000 : Nat) ≤ u64Max := by norm_num [u64Max]
    generalize config.initial_delay_ms * 2 ^ (n - 1) = t
    simp only [Nat.min_def]
    split_ifs <;> omega

/-- Witness for C4 (amended) at an exponential config with
`initial_delay_ms = 1000` and `n = 3`: the delay is 4000 ms. -/
theorem C4_delay_formula_witness :
    calculate_delay ⟨5, .exponential, 1000⟩ 3 = 4000 := by
  have h := C4_delay_formula ⟨5, .exponential, 1000⟩ 3 (by decide) (by decide)
  rw [h]
  norm_num

/-! ## Data model: events, flow triggers, steps, flows
(src/models/event.rs, src/models/flow.rs, src/models/step.rs).
Fields not consumed by the modelled core (ids, timestamps, metadata) are
omitted. -/

structure Event where
  event_type : String
  data : Json
deriving DecidableEq

structure FlowTrigger where
  event_type : String
  filters : Json
deriving DecidableEq

inductive FailureAction where
  | Stop
  | Continue
deriving DecidableEq

mutual

inductive StepType where
  | Webhook (url method : String) (headers : List (String × String))
      (body_template : Json) (timeout_ms : Option Nat)
      (retry : Option RetryConfig) : StepType
  | Condition (condition : String) (if_true if_false : Step) : StepType
  | Delay (duration_ms : Nat) : StepType
deriving DecidableEq

inductive Step where
  | mk (name : String) (step_type : StepType) (on_failure : FailureAction) : Step
deriving DecidableEq

end

def Step.name : Step → String
  | .mk n _ _ => n

def Step.step_type : Step → StepType
  | .mk _ t _ => t

def Step.on_failure : Step → FailureAction
  | .mk _ _ f => f

structure EventFlow where
  name : String
  trigger : FlowTrigger
  steps : List Step
  active : Bool

/-! ## Event–flow matcher (src/engine/matcher.rs) -/

/-- str::strip_suffix, on character lists. -/
def stripSuffixStr (s suffix : String) : Option String :=
  if suffix.data.isSuffixOf s.data then
    some (String.mk (s.data.take (s.data.length - suffix.data.length)))
  else none

/-- compare_values: numbers compare through as_f64 (idealised as rationals,
JSON numbers are never NaN), strings compare lexicographically, every other
pair of shapes is incomparable. -/
def compare_values (a b : Json) : Option Ordering :=
  match a, b with
  | .num x, .num y => some (if x < y then .lt else if y < x then .gt else .eq)
  | .str x, .str y => some (compare x y)
  | _, _ => none

/-- Matcher::check_gt: a missing event field fails the predicate. -/
def check_gt (data : Json) (field : String) (filter : Json) : Bool :=
  match data.get field with
  | none => false
  | some value => decide (compare_values value filter = some .gt)

/-- Matcher::check_lt: a missing event field fails the predicate. -/
def check_lt (data : Json) (field : String) (filter : Json) : Bool :=
  match data.get field with
  | none => false
  | some value => decide (compare_values value filter = some .lt)

/-- Matcher::check_gte: a missing event field fails the predicate. -/
def check_gte (data : Json) (field : String) (filter : Json) : Bool :=
  match data.get field with
  | none => false
  | some value =>
      decide (compare_values value filter = some .gt ∨
              compare_values value filter = some .eq)

/-- Matcher::check_lte: a missing event field fails the predicate. -/
def check_lte (data : Json) (field : String) (filter : Json) : Bool :=
  match data.get field with
  | none => false
  | some value =>
      decide (compare_values value filter = some .lt ∨
              compare_values value filter = some .eq)

/-- Matcher::check_ne: a missing event field fails the predicate. -/
def check_ne (data : Json) (field : String) (filter : Json) : Bool :=
  match data.get field with
  | none => false
  | some value => decide (value ≠ filter)

/-- One iteration of the Matcher::check_filters loop: the suffixes are tried
in the source's order `_gt`, `_lt`, `_gte`, `_lte`, `_ne`; an unsuffixed key
is a deep-equality test against the event field. -/
def checkFilterEntry (event_data : Json) (key : String) (filter_value : Json) :
    Bool :=
  match stripSuffixStr key "_gt" with
  | some field_name => check_gt event_data field_name filter_value
  | none =>
  match stripSuffixStr key "_lt" with
  | some field_name => check_lt event_data field_name filter_value
  | none =>
  match stripSuffixStr key "_gte" with
  | some field_name => check_gte event_data field_name filter_value
  | none =>
  match stripSuffixStr key "_lte" with
  | some field_name => check_lte event_data field_name filter_value
  | none =>
  match stripSuffixStr key "_ne" with
  | some field_name => check_ne event_data field_name filter_value
  | none => decide (event_data.get key = some filter_value)

/-- The conjunction over the filter object's entries. -/
def checkAllFilters (event_data : Json) : JsonObj → Bool
  | .nil => true
  | .cons k v tl => checkFilterEntry event_data k v && checkAllFilters event_data tl

/-- Matcher::check_filters: a non-object filters value passes vacuously. -/
def check_filters (event_data : Json) (filters : Json) : Bool :=
  match filters.asObject with
  | none => true
  | some fobj => checkAllFilters event_data fobj

/-- Matcher::matches. -/
def Matcher.matches (event : Event) (flow : EventFlow) : Bool :=
  if !flow.active then false
  else if event.event_type ≠ flow.trigger.event_type then false
  else if !flow.trigger.filters.isNull then
    check_filters event.data flow.trigger.filters
  else true

/-- The filter entries the matcher iterates over (empty for null and every
other non-object filters value). -/
def filterEntriesOf (filters : Json) : List (String × Json) :=
  match filters.asObject with
  | none => []
  | some fobj => fobj.entries

/-- The event-data field a filter key with a comparison suffix resolves to,
following the source's suffix dispatch order. -/
def comparisonField (key : String) : Option String :=
  match stripSuffixStr key "_gt" with
  | some f => some f
  | none =>
  match stripSuffixStr key "_lt" with
  | some f => some f
  | none =>
  match stripSuffixStr key "_gte" with
  | some f => some f
  | none =>
  match stripSuffixStr key "_lte" with
  | some f => some f
  | none => stripSuffixStr key "_ne"

/-! ### Matcher lemmas -/

theorem checkAllFilters_iff (d : Json) : (o : JsonObj) →
    (checkAllFilters d o = true ↔
      ∀ p ∈ o.entries, checkFilterEntry d p.1 p.2 = true)
  | .nil => by simp [checkAllFilters, JsonObj.entries]
  | .cons k v tl => by
    have ih := checkAllFilters_iff d tl
    simp [checkAllFilters, JsonObj.entries, ih]

theorem check_filters_iff (d : Json) (filters : Json) :
    check_filters d filters = true ↔
      ∀ p ∈ filterEntriesOf filters, checkFilterEntry d p.1 p.2 = true := by
  unfold check_filters filterEntriesOf
  cases h : filters.asObject with
  | none => simp
  | some o => simp [checkAllFilters_iff]

/-- C5: the matcher selects a flow iff the flow is active, the event types
agree and every filter predicate passes; every filter key carrying a
comparison suffix fails when the event data lacks the resolved field, and a
flow with such an entry does not match. -/
theorem C5_matcher (event : Event) (flow : EventFlow) :
    (Matcher.matches event flow = true ↔
      (flow.active = true ∧ event.event_type = flow.trigger.event_type ∧
        ∀ p ∈ filterEntriesOf flow.trigger.filters,
          checkFilterEntry event.data p.1 p.2 = true))
  ∧ (∀ key fv fld, comparisonField key = some fld →
        event.data.get fld = none →
        checkFilterEntry event.data key fv = false)
  ∧ (∀ key fv fld, (key, fv) ∈ filterEntriesOf flow.trigger.filters →
        comparisonField key = some fld → event.data.get fld = none →
        Matcher.matches event flow = false) := by
  have hmain : Matcher.matches event flow = true ↔
      (flow.active = true ∧ event.event_type = flow.trigger.event_type ∧
        ∀ p ∈ filterEntriesOf flow.trigger.filters,
          checkFilterEntry event.data p.1 p.2 = true) := by
    cases ha : flow.active with
    | false => simp [Matcher.matches, ha]
    | true =>
      by_cases hty : event.event_type = flow.trigger.event_type
      · by_cases hnull : flow.trigger.filters.isNull = true
        · have hfil : flow.trigger.filters = Json.null := by
            cases hv : flow.trigger.filters <;>
              simp [hv, Json.isNull] at hnull ⊢
          simp [Matcher.matches, ha, hty, hfil, Json.isNull,
            filterEntriesOf, Json.asObject]
        · simp [Matcher.matches, ha, hty, hnull, check_filters_iff]
      · simp [Matcher.matches, ha, hty]
  have hpart2 : ∀ key fv fld, comparisonField key = some fld →
      event.data.get fld = none →
      checkFilterEntry event.data key fv = false := by
    intro key fv fld hcf hget
    unfold comparisonField at hcf
    unfold checkFilterEntry
    cases h1 : stripSuffixStr key "_gt" with
    | some f =>
      rw [h1] at hcf
      simp only [Option.some.injEq] at hcf
      subst hcf
      simp [check_gt, hget]
    | none =>
    rw [h1] at hcf
    cases h2 : stripSuffixStr key "_lt" with
    | some f =>
      rw [h2] at hcf
      simp only [Option.some.injEq] at hcf
      subst hcf
      simp [h1, check_lt, hget]
    | none =>
    rw [h2] at hcf
    cases h3 : stripSuffixStr key "_gte" with
    | some f =>
      rw [h3] at hcf
      simp only [Option.some.injEq] at hcf
      subst hcf
      simp [h1, h2, check_gte, hget]
    | none =>
    rw [h3] at hcf
    cases h4 : stripSuffixStr key "_lte" with
    | some f =>
      rw [h4] at hcf
      simp only [Option.some.injEq] at hcf
      subst hcf
      simp [h1, h2, h3, check_lte, hget]
    | none =>
    rw [h4] at hcf
    cases h5 : stripSuffixStr key "_ne" with
    | some f =>
      rw [h5] at hcf
      simp only [Option.some.injEq] at hcf
      subst hcf
      simp [h1, h2, h3, h4, check_ne, hget]
    | none =>
      rw [h5] at hcf
      exact absurd hcf (by simp)
  refine ⟨hmain, hpart2, ?_⟩
  intro key fv fld hmem hcf hget
  cases hm : Matcher.matches event flow with
  | false => rfl
  | true =>
    have hall := (hmain.mp hm).2.2 (key, fv) hmem
    rw [hpart2 key fv fld hcf hget] at hall
    exact absurd hall (by simp)

/-- An event whose data lacks the `amount` field. -/
def eventEx5 : Event := ⟨"payment.completed", Json.obj .nil⟩

/-- An active flow filtering on `amount_gt`. -/
def flowEx5 : EventFlow :=
  ⟨"f", ⟨"payment.completed", Json.obj (.cons "amount_gt" (Json.num 100) .nil)⟩,
    [], true⟩

/-- Witness for C5: the `amount_gt` filter fails on an event without
`amount`, so the flow does not match. -/
theorem C5_matcher_witness : Matcher.matches eventEx5 flowEx5 = false :=
  (C5_matcher eventEx5 flowEx5).2.2 "amount_gt" (Json.num 100) "amount"
    (by decide) (by decide) (by decide)

/-- C10: a flow whose trigger filters value is null or any non-object JSON
value passes the filter check vacuously and matches every event with the
right type (given the flow is active). -/
theorem C10_nonobject_filters (event : Event) (flow : EventFlow)
    (hactive : flow.active = true)
    (htype : event.event_type = flow.trigger.event_type)
    (hobj : flow.trigger.filters.asObject = none) :
    check_filters event.data flow.trigger.filters = true ∧
    Matcher.matches event flow = true := by
  have hcf : check_filters event.data flow.trigger.filters = true := by
    unfold check_filters
    rw [hobj]
  refine ⟨hcf, ?_⟩
  unfold Matcher.matches
  by_cases hnull : flow.trigger.filters.isNull = true
  · simp [hactive, htype, hnull]
  · simp [hactive, htype, hnull, hcf]

/-- An event for the C10 witness. -/
def eventEx10 : Event := ⟨"t", Json.obj .nil⟩

/-- An active flow whose filters value is a string (non-object). -/
def flowEx10 : EventFlow := ⟨"f", ⟨"t", Json.str "notanobject"⟩, [], true⟩

/-- Witness for C10 at a string-valued filters field. -/
theorem C10_nonobject_filters_witness :
    check_filters eventEx10.data flowEx10.trigger.filters = true ∧
    Matcher.matches eventEx10 flowEx10 = true :=
  C10_nonobject_filters eventEx10 flowEx10 (by rfl) (by rfl) (by rfl)

/-! ## String helpers (char-list implementations of the std str functions the
code uses, so that terms evaluate inside the kernel) -/

/-- str::split on a single separator character (accumulator-based). -/
def splitOnCharAux (sep : Char) : List Char → List Char → List String
  | [], acc => [String.mk acc.reverse]
  | c :: rest, acc =>
    if c = sep then String.mk acc.reverse :: splitOnCharAux sep rest []
    else splitOnCharAux sep rest (c :: acc)

/-- str::split('.') and friends: splitting never yields an empty list. -/
def splitOnChar (sep : Char) (s : String) : List String :=
  splitOnCharAux sep s.data []

/-- str::contains (substring search). -/
def listContainsSub : List Char → List Char → Bool
  | hay, needle =>
    if needle.isPrefixOf hay then true
    else
      match hay with
      | [] => false
      | _ :: t => listContainsSub t needle

def strContainsSub (s substr : String) : Bool :=
  listContainsSub s.data substr.data

/-- str::to_uppercase (adequate for the ASCII method names the code matches). -/
def strToUpper (s : String) : String := String.mk (s.data.map Char.toUpper)

/-! ## Case data model (src/models/case.rs) -/

inductive CaseStatus where
  | Active
  | Completed
  | Failed
  | Paused
deriving DecidableEq

/-- The serde rendering of a CaseStatus (rename_all = "lowercase"). -/
def caseStatusStr : CaseStatus → String
  | .Active => "active"
  | .Completed => "completed"
  | .Failed => "failed"
  | .Paused => "paused"

structure Case where
  id : String
  workflow_id : String
  current_phase : String
  previous_phase : Option String
  data : Json
  status : CaseStatus
  metadata : Option Json
  created_at : Nat
  updated_at : Nat
  completed_at : Option Nat
  phase_entered_at : Nat
deriving DecidableEq

/-- Case::move_to_phase (updates phase fields and both timestamps to now). -/
def Case.move_to_phase (c : Case) (new_phase : String) (now : Nat) : Case :=
  { c with
    previous_phase := some c.current_phase
    current_phase := new_phase
    updated_at := now
    phase_entered_at := now }

/-- json!(x) for an optional string (None renders as null). -/
def optStrJson : Option String → Json
  | none => Json.null
  | some s => Json.str s

/-- json!(x) for an optional JSON value (None renders as null). -/
def optJson : Option Json → Json
  | none => Json.null
  | some v => v

/-! ## Automation condition evaluator (src/engine/automation_executor.rs,
evaluate_condition / evaluate_simple_condition / get_field_value) -/

/-- The `parts[1..]` walk of get_field_value through `case.data`; a missing
intermediate key is an error naming the full field path. -/
def getDataPath (field : String) : Json → List String → Except String Json
  | current, [] => .ok current
  | current, part :: rest =>
    match current.get part with
    | none => .error ("Field " ++ field ++ " not found")
    | some next => getDataPath field next rest

/-- AutomationExecutor::get_field_value: the first path segment selects a
root (`data`, `status`, `current_phase`, `previous_phase`); further segments
drill into `data` only. -/
def get_field_value (field : String) (c : Case) : Except String Json :=
  match splitOnChar '.' field with
  | "data" :: rest => getDataPath field c.data rest
  | "status" :: _ => .ok (Json.str (caseStatusStr c.status))
  | "current_phase" :: _ => .ok (Json.str c.current_phase)
  | "previous_phase" :: _ => .ok (optStrJson c.previous_phase)
  | _ => .error ("Unsupported field path: " ++ field)

/-- AutomationExecutor::evaluate_simple_condition. -/
def evaluate_simple_condition (field operator : String) (expected : Json)
    (c : Case) : Except String Bool :=
  match get_field_value field c with
  | .error e => .error e
  | .ok actual_value =>
    match operator with
    | "==" | "=" => .ok (decide (actual_value = expected))
    | "!=" => .ok (decide (actual_value ≠ expected))
    | ">" =>
      match actual_value.asNum, expected.asNum with
      | some a, some b => .ok (decide (a > b))
      | _, _ => .error "Cannot compare non-numeric values with >"
    | "<" =>
      match actual_value.asNum, expected.asNum with
      | some a, some b => .ok (decide (a < b))
      | _, _ => .error "Cannot compare non-numeric values with <"
    | ">=" =>
      match actual_value.asNum, expected.asNum with
      | some a, some b => .ok (decide (a ≥ b))
      | _, _ => .error "Cannot compare non-numeric values with >="
    | "<=" =>
      match actual_value.asNum, expected.asNum with
      | some a, some b => .ok (decide (a ≤ b))
      | _, _ => .error "Cannot compare non-numeric values with <="
    | "contains" =>
      match actual_value.asStr with
      | some s =>
        match expected.asStr with
        | some substr => .ok (strContainsSub s substr)
        | none => .error "contains operator requires string expected value"
      | none => .error "contains operator requires string actual value"
    | _ => .error ("Unsupported operator: " ++ operator)

structure SimpleCondition where
  field : String
  operator : String
  value : Json
deriving DecidableEq

inductive LogicalOperator where
  | And
  | Or
deriving DecidableEq

inductive Condition where
  | Simple (field operator : String) (value : Json)
  | Complex (operator : LogicalOperator) (conditions : List SimpleCondition)
deriving DecidableEq

/-- evaluate_simple_condition applied to one leaf of a complex condition. -/
def evalSimpleOf (c : Case) (x : SimpleCondition) : Except String Bool :=
  evaluate_simple_condition x.field x.operator x.value c

/-- The AND loop of evaluate_condition: stop at the first `false`, propagate
the first error. -/
def evalAndList (c : Case) : List SimpleCondition → Except String Bool
  | [] => .ok true
  | cond :: rest =>
    match evalSimpleOf c cond with
    | .error e => .error e
    | .ok false => .ok false
    | .ok true => evalAndList c rest

/-- The OR loop of evaluate_condition: stop at the first `true`, propagate
the first error. -/
def evalOrList (c : Case) : List SimpleCondition → Except String Bool
  | [] => .ok false
  | cond :: rest =>
    match evalSimpleOf c cond with
    | .error e => .error e
    | .ok true => .ok true
    | .ok false => evalOrList c rest

/-- AutomationExecutor::evaluate_condition. -/
def evaluate_condition (condition : Condition) (c : Case) : Except String Bool :=
  match condition with
  | .Simple field operator value => evaluate_simple_condition field operator value c
  | .Complex .And conditions => evalAndList c conditions
  | .Complex .Or conditions => evalOrList c conditions

/-! ### Condition evaluator lemmas -/

theorem evalAndList_append_false (c : Case) (l1 : List SimpleCondition)
    (cf : SimpleCondition) (l2 : List SimpleCondition)
    (h1 : ∀ x ∈ l1, evalSimpleOf c x = .ok true)
    (h2 : evalSimpleOf c cf = .ok false) :
    evalAndList c (l1 ++ cf :: l2) = .ok false := by
  induction l1 with
  | nil => simp [evalAndList, h2]
  | cons a t ih =>
    have ha := h1 a (by simp)
    simp only [List.cons_append, evalAndList, ha]
    exact ih (fun x hx => h1 x (by simp [hx]))

theorem evalAndList_append_error (c : Case) (l1 : List SimpleCondition)
    (cf : SimpleCondition) (l2 : List SimpleCondition) (e : String)
    (h1 : ∀ x ∈ l1, evalSimpleOf c x = .ok true)
    (h2 : evalSimpleOf c cf = .error e) :
    evalAndList c (l1 ++ cf :: l2) = .error e := by
  induction l1 with
  | nil => simp [evalAndList, h2]
  | cons a t ih =>
    have ha := h1 a (by simp)
    simp only [List.cons_append, evalAndList, ha]
    exact ih (fun x hx => h1 x (by simp [hx]))

theorem evalOrList_append_true (c : Case) (l1 : List SimpleCondition)
    (cf : SimpleCondition) (l2 : List SimpleCondition)
    (h1 : ∀ x ∈ l1, evalSimpleOf c x = .ok false)
    (h2 : evalSimpleOf c cf = .ok true) :
    evalOrList c (l1 ++ cf :: l2) = .ok true := by
  induction l1 with
  | nil => simp [evalOrList, h2]
  | cons a t ih =>
    have ha := h1 a (by simp)
    simp only [List.cons_append, evalOrList, ha]
    exact ih (fun x hx => h1 x (by simp [hx]))

theorem evalOrList_append_error (c : Case) (l1 : List SimpleCondition)
    (cf : SimpleCondition) (l2 : List SimpleCondition) (e : String)
    (h1 : ∀ x ∈ l1, evalSimpleOf c x = .ok false)
    (h2 : evalSimpleOf c cf = .error e) :
    evalOrList c (l1 ++ cf :: l2) = .error e := by
  induction l1 with
  | nil => simp [evalOrList, h2]
  | cons a t ih =>
    have ha := h1 a (by simp)
    simp only [List.cons_append, evalOrList, ha]
    exact ih (fun x hx => h1 x (by simp [hx]))

/-- C7: the numeric operators error unless both sides parse as numbers; a
complex AND stops at the first false leaf and OR at the first true leaf,
ignoring whatever comes after; a leaf evaluation error propagates out of the
complex combinator. -/
theorem C7_condition_evaluator (c : Case) :
    (∀ field op expected, op ∈ ([">", "<", ">=", "<="] : List String) →
      ∀ r, evaluate_simple_condition field op expected c = .ok r →
        ∃ v, get_field_value field c = .ok v ∧
          v.asNum.isSome = true ∧ expected.asNum.isSome = true)
  ∧ (∀ l1 cf l2, (∀ x ∈ l1, evalSimpleOf c x = .ok true) →
      evalSimpleOf c cf = .ok false →
      evaluate_condition (.Complex .And (l1 ++ cf :: l2)) c = .ok false)
  ∧ (∀ l1 cf l2, (∀ x ∈ l1, evalSimpleOf c x = .ok false) →
      evalSimpleOf c cf = .ok true →
      evaluate_condition (.Complex .Or (l1 ++ cf :: l2)) c = .ok true)
  ∧ (∀ l1 cf l2 e, (∀ x ∈ l1, evalSimpleOf c x = .ok true) →
      evalSimpleOf c cf = .error e →
      evaluate_condition (.Complex .And (l1 ++ cf :: l2)) c = .error e)
  ∧ (∀ l1 cf l2 e, (∀ x ∈ l1, evalSimpleOf c x = .ok false) →
      evalSimpleOf c cf = .error e →
      evaluate_condition (.Complex .Or (l1 ++ cf :: l2)) c = .error e) := by
  refine ⟨?_, ?_, ?_, ?_, ?_⟩
  · intro field op expected hmem r h
    unfold evaluate_simple_condition at h
    cases hg : get_field_value field c with
    | error e =>
      rw [hg] at h
      exact absurd h (by simp)
    | ok v =>
      rw [hg] at h
      refine ⟨v, rfl, ?_⟩
      simp only [List.mem_cons, List.not_mem_nil, or_false] at hmem
      rcases hmem with rfl | rfl | rfl | rfl <;>
      · simp only [] at h
        cases ha : v.asNum <;> cases he : expected.asNum <;>
          simp [ha, he] at h ⊢
  · intro l1 cf l2 h1 h2
    exact evalAndList_append_false c l1 cf l2 h1 h2
  · intro l1 cf l2 h1 h2
    exact evalOrList_append_true c l1 cf l2 h1 h2
  · intro l1 cf l2 e h1 h2
    exact evalAndList_append_error c l1 cf l2 e h1 h2
  · intro l1 cf l2 e h1 h2
    exact evalOrList_append_error c l1 cf l2 e h1 h2

/-- A case with data `{amount: 5000}` in phase Review. -/
def caseEx7 : Case :=
  ⟨"c1", "w1", "Review", none, Json.obj (.cons "amount" (Json.num 5000) .nil),
    .Active, none, 0, 0, none, 0⟩

/-- Witness for C7: a missing-field error in the second AND leaf propagates
out of the complex combinator, past a later leaf. -/
theorem C7_condition_evaluator_witness :
    evaluate_condition
      (.Complex .And ([⟨"data.amount", ">", Json.num 1000⟩] ++
        ⟨"data.missing", "==", Json.num 1⟩ ::
        [⟨"status", "==", Json.str "active"⟩])) caseEx7 =
      .error "Field data.missing not found" := by
  have h := (C7_condition_evaluator caseEx7).2.2.2.1
  refine h [⟨"data.amount", ">", Json.num 1000⟩]
    ⟨"data.missing", "==", Json.num 1⟩ [⟨"status", "==", Json.str "active"⟩]
    "Field data.missing not found" ?_ (by rfl)
  intro x hx
  simp only [List.mem_singleton] at hx
  subst hx
  rfl

/-! ## Flow executor (src/engine/executor.rs)

`Executor::execute_step` dispatches into outbound HTTP (webhook steps),
nested condition steps and sleeps; its outcome for a given step does not
depend on the accumulated `steps_status` (the interpolators ignore their
`_previous_steps` argument), so it is abstracted here as an oracle
`runStep : Step → Except String Json`.  The bookkeeping loop of
`Executor::execute` is translated directly. -/

inductive StepExecutionStatus where
  | Running
  | Completed
  | Failed
  | Skipped
deriving DecidableEq

inductive ExecutionStatus where
  | Pending
  | Running
  | Completed
  | Failed
  | Retrying
deriving DecidableEq

/-- StepStatus (started_at / completed_at are wall-clock and omitted). -/
structure StepStatus where
  status : StepExecutionStatus
  attempts : Nat
  response : Option Json
  error : Option String
deriving DecidableEq

/-- The observable part of an Execution row (ids and wall-clock timestamps
omitted). -/
structure Execution where
  status : ExecutionStatus
  current_step : Option String
  steps_status : List (String × StepStatus)
  error : Option String
deriving DecidableEq

/-- HashMap::insert on the steps_status map: replace the binding if the key
exists, else append. -/
def insertStatus : List (String × StepStatus) → String → StepStatus →
    List (String × StepStatus)
  | [], k, v => [(k, v)]
  | (k0, v0) :: t, k, v =>
    if k0 = k then (k, v) :: t else (k0, v0) :: insertStatus t k v

/-- HashMap::get by key (first binding). -/
def lookupKey : List (String × StepStatus) → String → Option StepStatus
  | [], _ => none
  | (k0, v0) :: t, k => if k0 = k then some v0 else lookupKey t k

/-- The `for step in &flow.steps` loop of Executor::execute.  Returns the
final `steps_status` map, `current_step`, the `flow_failed` flag and the
recorded `execution.error`.  Success and failure both record a StepStatus
with `attempts = 1`; a failing stop-step sets the flag, records the error
and breaks; a failing continue-step proceeds. -/
def executeLoop (runStep : Step → Except String Json) :
    List Step → List (String × StepStatus) → Option String →
    List (String × StepStatus) × Option String × Bool × Option String
  | [], acc, cur => (acc, cur, false, none)
  | step :: rest, acc, _ =>
    match runStep step with
    | .ok response =>
      let st : StepStatus := ⟨.Completed, 1, some response, none⟩
      executeLoop runStep rest (insertStatus acc step.name st) (some step.name)
    | .error err =>
      let st : StepStatus := ⟨.Failed, 1, none, some err⟩
      let acc2 := insertStatus acc step.name st
      match step.on_failure with
      | .Stop => (acc2, some step.name, true, some err)
      | .Continue => executeLoop runStep rest acc2 (some step.name)

/-- Executor::execute: run the loop, then set the final status to Failed iff
some step stopped the flow, else Completed. -/
def Executor.execute (runStep : Step → Except String Json)
    (flow : EventFlow) : Execution :=
  let r := executeLoop runStep flow.steps [] none
  { status := if r.2.2.1 then .Failed else .Completed
    current_step := r.2.1
    steps_status := r.1
    error := r.2.2.2 }

/-- Specification-side predicate: some step errors with `on_failure = stop`
before any of its predecessors stopped the flow. -/
def anyStops (runStep : Step → Except String Json) : List Step → Bool
  | [] => false
  | s :: rest =>
    match runStep s with
    | .ok _ => anyStops runStep rest
    | .error _ =>
      match s.on_failure with
      | .Stop => true
      | .Continue => anyStops runStep rest

/-! ### Flow executor lemmas -/

theorem insertStatus_mem (m : List (String × StepStatus)) (k : String)
    (v : StepStatus) (p : String × StepStatus) (hp : p ∈ insertStatus m k v) :
    p.2 = v ∨ p ∈ m := by
  induction m with
  | nil =>
    simp [insertStatus] at hp
    subst hp
    simp
  | cons a t ih =>
    simp only [insertStatus] at hp
    split at hp
    · rcases List.mem_cons.mp hp with h | h
      · subst h; simp
      · exact Or.inr (List.mem_cons_of_mem a h)
    · rcases List.mem_cons.mp hp with h | h
      · subst h; simp
      · rcases ih h with h2 | h2
        · exact Or.inl h2
        · exact Or.inr (List.mem_cons_of_mem a h2)

theorem insertStatus_lookup (m : List (String × StepStatus)) (k0 k : String)
    (v : StepStatus) :
    lookupKey (insertStatus m k0 v) k = if k0 = k then some v else lookupKey m k := by
  induction m with
  | nil =>
    simp [insertStatus, lookupKey]
  | cons a t ih =>
    simp only [insertStatus]
    by_cases h1 : a.1 = k0
    · simp only [h1, if_pos rfl, lookupKey]
      by_cases h2 : k0 = k <;> simp [h2, lookupKey, h1]
    · simp only [if_neg h1, lookupKey, ih]
      by_cases h2 : a.1 = k
      · have : ¬ k0 = k := fun he => h1 (he ▸ h2)
        simp [h2, this]
      · simp [h2]

theorem executeLoop_attempts (runStep : Step → Except String Json)
    (steps : List Step) :
    ∀ acc cur, (∀ p ∈ acc, p.2.attempts = 1) →
      ∀ p ∈ (executeLoop runStep steps acc cur).1, p.2.attempts = 1 := by
  induction steps with
  | nil => intro acc cur hacc p hp; exact hacc p hp
  | cons s rest ih =>
    intro acc cur hacc p hp
    simp only [executeLoop] at hp
    cases hr : runStep s with
    | ok response =>
      rw [hr] at hp
      refine ih _ _ ?_ p hp
      intro q hq
      rcases insertStatus_mem _ _ _ q hq with h | h
      · rw [h]
      · exact hacc q h
    | error err =>
      rw [hr] at hp
      cases hf : s.on_failure with
      | Stop =>
        rw [hf] at hp
        simp only [] at hp
        rcases insertStatus_mem _ _ _ p hp with h | h
        · rw [h]
        · exact hacc p h
      | Continue =>
        rw [hf] at hp
        refine ih _ _ ?_ p hp
        intro q hq
        rcases insertStatus_mem _ _ _ q hq with h | h
        · rw [h]
        · exact hacc q h

theorem executeLoop_failed_iff (runStep : Step → Except String Json)
    (steps : List Step) :
    ∀ acc cur, (executeLoop runStep steps acc cur).2.2.1 = anyStops runStep steps := by
  induction steps with
  | nil => intro acc cur; rfl
  | cons s rest ih =>
    intro acc cur
    simp only [executeLoop, anyStops]
    cases hr : runStep s with
    | ok response => exact ih _ _
    | error err =>
      cases hf : s.on_failure with
      | Stop => rfl
      | Continue => exact ih _ _

theorem executeLoop_error_some (runStep : Step → Except String Json)
    (steps : List Step) :
    ∀ acc cur, anyStops runStep steps = true →
      ((executeLoop runStep steps acc cur).2.2.2).isSome = true := by
  induction steps with
  | nil => intro acc cur h; exact absurd h (by simp [anyStops])
  | cons s rest ih =>
    intro acc cur h
    simp only [anyStops] at h
    simp only [executeLoop]
    cases hr : runStep s with
    | ok response =>
      rw [hr] at h
      exact ih _ _ h
    | error err =>
      rw [hr] at h
      cases hf : s.on_failure with
      | Stop => simp
      | Continue =>
        rw [hf] at h
        exact ih _ _ h

theorem executeLoop_key_preserved (runStep : Step → Except String Json)
    (steps : List Step) :
    ∀ acc cur k, (lookupKey acc k).isSome = true →
      (lookupKey (executeLoop runStep steps acc cur).1 k).isSome = true := by
  induction steps with
  | nil => intro acc cur k h; exact h
  | cons s rest ih =>
    intro acc cur k h
    simp only [executeLoop]
    cases hr : runStep s with
    | ok response =>
      refine ih _ _ k ?_
      rw [insertStatus_lookup]
      by_cases he : s.name = k <;> simp [he, h]
    | error err =>
      cases hf : s.on_failure with
      | Stop =>
        simp only []
        rw [insertStatus_lookup]
        by_cases he : s.name = k <;> simp [he, h]
      | Continue =>
        refine ih _ _ k ?_
        rw [insertStatus_lookup]
        by_cases he : s.name = k <;> simp [he, h]

theorem executeLoop_all_keys (runStep : Step → Except String Json)
    (steps : List Step) :
    ∀ acc cur, anyStops runStep steps = false →
      ∀ s ∈ steps,
        (lookupKey (executeLoop runStep steps acc cur).1 s.name).isSome = true := by
  induction steps with
  | nil => intro acc cur h s hs; exact absurd hs (by simp)
  | cons s0 rest ih =>
    intro acc cur h s hs
    simp only [anyStops] at h
    simp only [executeLoop]
    cases hr : runStep s0 with
    | ok response =>
      rw [hr] at h
      rcases List.mem_cons.mp hs with rfl | hmem
      · refine executeLoop_key_preserved runStep rest _ _ _ ?_
        rw [insertStatus_lookup]
        simp
      · exact ih _ _ h s hmem
    | error err =>
      rw [hr] at h
      cases hf : s0.on_failure with
      | Stop => rw [hf] at h; exact absurd h (by simp)
      | Continue =>
        rw [hf] at h
        rcases List.mem_cons.mp hs with rfl | hmem
        · refine executeLoop_key_preserved runStep rest _ _ _ ?_
          rw [insertStatus_lookup]
          simp
        · exact ih _ _ h s hmem

/-- C6: every recorded StepStatus has `attempts = 1`; the execution's final
status is `failed` iff some step errored with `on_failure = stop` (and is
`completed` otherwise, even if continue-steps failed); a stopping step
records its error on the execution; when no step stops the flow, every step
runs and is recorded under its name. -/
theorem C6_flow_executor (runStep : Step → Except String Json)
    (flow : EventFlow) :
    (∀ p ∈ (Executor.execute runStep flow).steps_status, p.2.attempts = 1)
  ∧ ((Executor.execute runStep flow).status = .Failed ↔
      anyStops runStep flow.steps = true)
  ∧ ((Executor.execute runStep flow).status = .Failed ∨
      (Executor.execute runStep flow).status = .Completed)
  ∧ (anyStops runStep flow.steps = true →
      ((Executor.execute runStep flow).error).isSome = true)
  ∧ (anyStops runStep flow.steps = false →
      ∀ s ∈ flow.steps,
        (lookupKey (Executor.execute runStep flow).steps_status s.name).isSome = true) := by
  refine ⟨?_, ?_, ?_, ?_, ?_⟩
  · intro p hp
    exact executeLoop_attempts runStep flow.steps [] none (by simp) p hp
  · simp only [Executor.execute]
    rw [executeLoop_failed_iff runStep flow.steps [] none]
    cases anyStops runStep flow.steps <;> simp
  · simp only [Executor.execute]
    cases (executeLoop runStep flow.steps [] none).2.2.1 <;> simp
  · intro h
    simp only [Executor.execute]
    exact executeLoop_error_some runStep flow.steps [] none h
  · intro h s hs
    simp only [Executor.execute]
    exact executeLoop_all_keys runStep flow.steps [] none h s hs

/-- An oracle failing exactly on the step named `bad`. -/
def runStepEx : Step → Except String Json :=
  fun s => if s.name = "bad" then .error "HTTP 500 - x" else .ok (Json.obj .nil)

/-- A flow whose middle step fails with `on_failure = continue`. -/
def flowEx6 : EventFlow :=
  ⟨"f6", ⟨"t", Json.null⟩,
    [⟨"s1", .Delay 5, .Stop⟩, ⟨"bad", .Delay 1, .Continue⟩, ⟨"s3", .Delay 2, .Stop⟩],
    true⟩

/-- Witness for C6: the continue-failure does not fail the flow, and the
failing step is still recorded under its name. -/
theorem C6_flow_executor_witness :
    (Executor.execute runStepEx flowEx6).status = .Completed ∧
    (lookupKey (Executor.execute runStepEx flowEx6).steps_status "bad").isSome = true := by
  have h := C6_flow_executor runStepEx flowEx6
  have hstops : anyStops runStepEx flowEx6.steps = false := by rfl
  constructor
  · rcases h.2.2.1 with hf | hc
    · have := h.2.1.mp hf
      rw [hstops] at this
      exact absurd this (by simp)
    · exact hc
  · have hk := h.2.2.2.2 hstops ⟨"bad", .Delay 1, .Continue⟩ (by simp [flowEx6])
    exact hk

/-! ## Automation actions (src/models/automation.rs) -/

inductive AutomationTrigger where
  | OnEnter
  | OnExit
deriving DecidableEq

inductive OnError where
  | Stop
  | Continue
deriving DecidableEq

/-- models::automation::RetryConfig (the automation-webhook retry knob,
distinct from the step RetryConfig). -/
structure AutoRetryConfig where
  enabled : Bool
  max_attempts : Nat
  delay_ms : Nat
deriving DecidableEq

inductive CaseModification where
  | MoveToPhase (phase : String)
  | SetField (field : String) (value : Json)
deriving DecidableEq

inductive AutomationAction where
  | Webhook (id name : Option String) (url : String) (method : Option String)
      (headers : Option (List (String × String))) (fields : Option (List String))
      (use_response_from : Option String) (retry : AutoRetryConfig)
      (on_error : OnError) : AutomationAction
  | Delay (name : Option String) (duration_ms : Nat) : AutomationAction
  | Conditional (name : Option String) (condition : Condition)
      (thenActions : List AutomationAction)
      (elseActions : Option (List AutomationAction)) : AutomationAction
  | MoveToPhase (name : Option String) (phase : String) : AutomationAction
  | SetField (name : Option String) (field : String) (value : Json) : AutomationAction

/-- AutomationAction::id(): only webhooks carry one. -/
def AutomationAction.actionId : AutomationAction → Option String
  | .Webhook i _ _ _ _ _ _ _ _ => i
  | _ => none

/-- AutomationAction::name(). -/
def AutomationAction.nameOf : AutomationAction → Option String
  | .Webhook _ n _ _ _ _ _ _ _ => n
  | .Delay n _ => n
  | .Conditional n _ _ _ => n
  | .MoveToPhase n _ => n
  | .SetField n _ _ => n

/-- AutomationAction::on_error(): configurable only on webhooks, every other
variant is Continue. -/
def AutomationAction.onError : AutomationAction → OnError
  | .Webhook _ _ _ _ _ _ _ _ e => e
  | _ => .Continue

structure PhaseAutomation where
  trigger : AutomationTrigger
  phase : String
  actions : List AutomationAction

/-- WorkflowAutomations. -/
structure WorkflowAutomations where
  automations : List PhaseAutomation

def WorkflowAutomations.get_on_enter_automations (w : WorkflowAutomations)
    (phase : String) : List PhaseAutomation :=
  w.automations.filter (fun a => a.trigger = .OnEnter ∧ a.phase = phase)

def WorkflowAutomations.get_on_exit_automations (w : WorkflowAutomations)
    (phase : String) : List PhaseAutomation :=
  w.automations.filter (fun a => a.trigger = .OnExit ∧ a.phase = phase)

/-! ## Automation executor (src/engine/automation_executor.rs)

The reqwest call inside `execute_webhook` (send + status check + JSON parse
of the body) is the oracle `send`; everything around it is translated. -/

/-- The per-invocation webhook-response map (HashMap<String, Value>):
insert replaces an existing binding. -/
def insertResp : List (String × Json) → String → Json → List (String × Json)
  | [], k, v => [(k, v)]
  | (k0, v0) :: t, k, v =>
    if k0 = k then (k, v) :: t else (k0, v0) :: insertResp t k v

def lookupResp : List (String × Json) → String → Option Json
  | [], _ => none
  | (k0, v0) :: t, k => if k0 = k then some v0 else lookupResp t k

/-- serde_json::Map::insert (key order is irrelevant to the claims; the map
is modelled as replace-or-append). -/
def insertJsonField : JsonObj → String → Json → JsonObj
  | .nil, k, v => .cons k v .nil
  | .cons k0 v0 t, k, v =>
    if k0 = k then .cons k v t else .cons k0 v0 (insertJsonField t k v)

/-- AutomationExecutor::build_webhook_body: either the whitelisted
projection of the requested fields (unknown names skipped) or the full
default payload. -/
def build_webhook_body (c : Case) (from_phase : Option String)
    (fields : Option (List String)) : Json :=
  match fields with
  | some field_list =>
      Json.obj (field_list.foldl (fun body f =>
        match f with
        | "case_id" | "id" => insertJsonField body "case_id" (Json.str c.id)
        | "workflow_id" => insertJsonField body "workflow_id" (Json.str c.workflow_id)
        | "current_phase" => insertJsonField body "current_phase" (Json.str c.current_phase)
        | "previous_phase" => insertJsonField body "previous_phase" (optStrJson from_phase)
        | "data" => insertJsonField body "data" c.data
        | "metadata" => insertJsonField body "metadata" (optJson c.metadata)
        | "status" => insertJsonField body "status" (Json.str (caseStatusStr c.status))
        | "created_at" => insertJsonField body "created_at" (Json.num c.created_at)
        | "updated_at" => insertJsonField body "updated_at" (Json.num c.updated_at)
        | _ => body) .nil)
  | none =>
      Json.obj (.cons "case_id" (Json.str c.id)
        (.cons "workflow_id" (Json.str c.workflow_id)
        (.cons "current_phase" (Json.str c.current_phase)
        (.cons "previous_phase" (optStrJson from_phase)
        (.cons "data" c.data
        (.cons "metadata" (optJson c.metadata)
        (.cons "status" (Json.str (caseStatusStr c.status))
        (.cons "created_at" (Json.num c.created_at)
        (.cons "updated_at" (Json.num c.updated_at) .nil)))))))))

/-- AutomationExecutor::execute_webhook: uppercase the method, attach the
body only for POST/PUT/PATCH, reject unknown methods before any request is
sent.  Headers are applied verbatim and do not influence control flow. -/
def execute_webhook (send : String → String → Json → Except String Json)
    (url method : String) (_headers : Option (List (String × String)))
    (body : Json) : Except String Json :=
  let m := strToUpper method
  if m = "GET" then send url m Json.null
  else if m = "POST" then send url m body
  else if m = "PUT" then send url m body
  else if m = "DELETE" then send url m Json.null
  else if m = "PATCH" then send url m body
  else .error ("Unsupported HTTP method: " ++ method)

/-- The `for attempt in 1..=max_attempts` loop of
execute_webhook_with_retry, counted down by remaining iterations.  The call
is pure, so each attempt observes the same outcome; `last_error` mirrors the
source's Option. -/
def webhookRetryGo (call : Except String Json) :
    Nat → Option String → Except String Json
  | 0, last_error =>
    match last_error with
    | some e => .error e
    | none => .error "All retry attempts failed"
  | n + 1, _ =>
    match call with
    | .ok r => .ok r
    | .error e => webhookRetryGo call n (some e)

/-- The `?`-chain computing a webhook's body: a `use_response_from` id is
looked up in the current responses map (absence is an error), otherwise the
body is built from the case. -/
def webhookBodyOf (c : Case) (from_phase : Option String)
    (fields : Option (List String)) (use_response_from : Option String)
    (previous_responses : List (String × Json)) : Except String Json :=
  match use_response_from with
  | some response_id =>
    match lookupResp previous_responses response_id with
    | some v => .ok v
    | none => .error ("Response from " ++ response_id ++ " not found")
  | none => .ok (build_webhook_body c from_phase fields)

/-- action.name().unwrap_or(format!("action_{}", idx)). -/
def actionDisplayName (a : AutomationAction) (idx : Nat) : String :=
  (a.nameOf).getD ("action_" ++ toString idx)

mutual

/-- AutomationExecutor::execute_actions: the loop over one action list.  The
source allocates a fresh `action_responses` HashMap at the top of each
invocation; here the map is the loop parameter and every entry call passes
`[]`.  `acc` is the growing `result.modifications` buffer. -/
def execute_actions (send : String → String → Json → Except String Json)
    (c : Case) (from_phase : Option String) :
    List AutomationAction → Nat → List (String × Json) →
    List CaseModification → Except String (List CaseModification)
  | [], _, _, acc => .ok acc
  | action :: rest, idx, action_responses, acc =>
    match execute_action send c from_phase action action_responses with
    | .ok (response, modifications) =>
      let action_responses2 :=
        match action.actionId with
        | some i => insertResp action_responses i response
        | none => action_responses
      execute_actions send c from_phase rest (idx + 1) action_responses2
        (acc ++ modifications)
    | .error e =>
      match action.onError with
      | .Stop =>
        .error ("Action " ++ actionDisplayName action idx ++ " failed: " ++ e)
      | .Continue => execute_actions send c from_phase rest (idx + 1)
          action_responses acc

/-- AutomationExecutor::execute_action: dispatch on the variant.  A
conditional recurses into its branch with a fresh (empty) responses map and
returns only the branch's modifications. -/
def execute_action (send : String → String → Json → Except String Json)
    (c : Case) (from_phase : Option String) :
    AutomationAction → List (String × Json) →
    Except String (Json × List CaseModification)
  | .Webhook _ _ url method headers fields use_response_from retry _,
      previous_responses =>
    match webhookBodyOf c from_phase fields use_response_from
        previous_responses with
    | .error e => .error e
    | .ok body =>
      if retry.enabled then
        match webhookRetryGo
            (execute_webhook send url (method.getD "POST") headers body)
            retry.max_attempts none with
        | .ok r => .ok (r, [])
        | .error e => .error e
      else
        match execute_webhook send url (method.getD "POST") headers body with
        | .ok r => .ok (r, [])
        | .error e => .error e
  | .Delay _ duration_ms, _ =>
    .ok (Json.obj (.cons "delayed_ms" (Json.num duration_ms) .nil), [])
  | .Conditional _ condition thenActions elseActions, _ =>
    match evaluate_condition condition c with
    | .error e => .error e
    | .ok true =>
      match execute_actions send c from_phase thenActions 0 [] [] with
      | .error e => .error e
      | .ok mods =>
        .ok (Json.obj (.cons "condition_result" (Json.bool true) .nil), mods)
    | .ok false =>
      match elseActions with
      | some else_actions =>
        match execute_actions send c from_phase else_actions 0 [] [] with
        | .error e => .error e
        | .ok mods =>
          .ok (Json.obj (.cons "condition_result" (Json.bool false) .nil), mods)
      | none =>
        .ok (Json.obj (.cons "condition_result" (Json.bool false) .nil), [])
  | .MoveToPhase _ phase, _ =>
    .ok (Json.obj (.cons "action" (Json.str "move_to_phase")
          (.cons "phase" (Json.str phase) .nil)),
        [.MoveToPhase phase])
  | .SetField _ field value, _ =>
    .ok (Json.obj (.cons "action" (Json.str "set_field")
          (.cons "field" (Json.str field)
          (.cons "value" value .nil))),
        [.SetField field value])

end

/-- The loop of AutomationExecutor::execute_automations: run each
PhaseAutomation's actions in order, concatenating modifications; the first
error aborts the whole batch. -/
def executeAutomationsGo (send : String → String → Json → Except String Json)
    (c : Case) (from_phase : Option String) :
    List PhaseAutomation → List CaseModification →
    Except String (List CaseModification)
  | [], acc => .ok acc
  | a :: rest, acc =>
    match execute_actions send c from_phase a.actions 0 [] [] with
    | .ok mods => executeAutomationsGo send c from_phase rest (acc ++ mods)
    | .error e => .error e

/-- AutomationExecutor::execute_automations. -/
def execute_automations (send : String → String → Json → Except String Json)
    (automations : List PhaseAutomation) (c : Case)
    (from_phase : Option String) : Except String (List CaseModification) :=
  executeAutomationsGo send c from_phase automations []

/-! ### Webhook-response scoping (C8) -/

/-- C8: the webhook-response map is local to each execute_actions
invocation.  A Conditional's result is independent of the enclosing responses
map (its branches start from an empty map, so a `use_response_from` naming a
parent-level id errors even when the parent map holds that id); after a
Conditional, the parent loop continues with its responses map unchanged
(a Conditional stores no id) and only the branch's modifications merged. -/
theorem C8_responses_scope (send : String → String → Json → Except String Json)
    (c : Case) (fp : Option String) (nm : Option String) (cond : Condition)
    (thenA : List AutomationAction) (elseA : Option (List AutomationAction)) :
    (∀ R R', execute_action send c fp (.Conditional nm cond thenA elseA) R =
             execute_action send c fp (.Conditional nm cond thenA elseA) R')
  ∧ (∀ rest idx R acc resp mods,
      execute_action send c fp (.Conditional nm cond thenA elseA) R =
        .ok (resp, mods) →
      execute_actions send c fp ((.Conditional nm cond thenA elseA) :: rest)
          idx R acc =
        execute_actions send c fp rest (idx + 1) R (acc ++ mods))
  ∧ (∀ rest idx R acc e,
      execute_action send c fp (.Conditional nm cond thenA elseA) R = .error e →
      execute_actions send c fp ((.Conditional nm cond thenA elseA) :: rest)
          idx R acc =
        execute_actions send c fp rest (idx + 1) R acc)
  ∧ (∀ R rid v rest2 wname url method headers fields retry,
      lookupResp R rid = some v →
      evaluate_condition cond c = .ok true →
      thenA = (.Webhook none wname url method headers fields (some rid) retry
        .Stop) :: rest2 →
      ∃ e, execute_action send c fp (.Conditional nm cond thenA elseA) R =
        .error e) := by
  refine ⟨?_, ?_, ?_, ?_⟩
  · intro R R'
    cases elseA with
    | none => rw [execute_action.eq_4, execute_action.eq_4]
    | some ea => rw [execute_action.eq_3, execute_action.eq_3]
  · intro rest idx R acc resp mods h
    rw [execute_actions.eq_2]
    simp only [h, AutomationAction.actionId]
  · intro rest idx R acc e h
    rw [execute_actions.eq_2]
    simp only [h, AutomationAction.onError]
  · intro R rid v rest2 wname url method headers fields retry hlook hcond hthen
    subst hthen
    have hinner : execute_actions send c fp
        ((.Webhook none wname url method headers fields (some rid) retry
          .Stop) :: rest2) 0 [] [] =
        .error ("Action " ++
          actionDisplayName (.Webhook none wname url method headers fields
            (some rid) retry .Stop) 0 ++
          " failed: " ++ ("Response from " ++ rid ++ " not found")) := by
      rw [execute_actions.eq_2, execute_action.eq_1]
      simp only [webhookBodyOf, lookupResp, AutomationAction.onError]
    cases elseA with
    | none =>
      rw [execute_action.eq_4]
      simp only [hcond, hinner]
      exact ⟨_, rfl⟩
    | some ea =>
      rw [execute_action.eq_3]
      simp only [hcond, hinner]
      exact ⟨_, rfl⟩

/-- An oracle whose webhook calls all succeed (irrelevant to the witness:
the child errors before any call). -/
def sendOkEx : String → String → Json → Except String Json :=
  fun _ _ _ => .ok Json.null

/-- A condition that holds for caseEx7. -/
def condEx8 : Condition := .Simple "current_phase" "==" (Json.str "Review")

/-- A then-branch whose first action references the parent-level id p1. -/
def thenEx8 : List AutomationAction :=
  [.Webhook none none "http://x" none none none (some "p1") ⟨false, 3, 1000⟩
    .Stop]

/-- A parent-level responses map holding p1. -/
def respsEx8 : List (String × Json) := [("p1", Json.str "parent")]

/-- Witness for C8: even though the parent map holds p1, the branch starts
from an empty map and the `use_response_from p1` webhook errors. -/
theorem C8_responses_scope_witness :
    ∃ e, execute_action sendOkEx caseEx7 none
      (.Conditional none condEx8 thenEx8 none) respsEx8 = .error e :=
  (C8_responses_scope sendOkEx caseEx7 none none condEx8 thenEx8 none).2.2.2
    respsEx8 "p1" (Json.str "parent") [] none "http://x" none none none
    ⟨false, 3, 1000⟩ (by rfl) (by rfl) (by rfl)

/-! ## Case state transaction (src/api/cases/automation_handler.rs,
apply_automation_modifications) -/

/-- A row of orchepy_case_history (the transitioned_at wall-clock instant is
omitted). -/
structure HistoryRow where
  from_phase : Option String
  to_phase : String
  reason : Option String
  triggered_by : Option String
deriving DecidableEq

/-- The database state the transaction touches: the case row and its history
rows (append-only, in insertion order). -/
structure TxState where
  c : Case
  history : List HistoryRow
deriving DecidableEq

/-- Modelled from Postgres jsonb_set(target, path, new_value, true): the
last path key is created if missing, a missing intermediate leaves the
target unchanged.  (The handler always passes a single-element path: it
joins `parts[1..]` with dots and wraps the result in one pair of braces.) -/
def jsonbSet : Json → List String → Json → Json
  | target, [], _ => target
  | Json.obj fields, [k], v => Json.obj (insertJsonField fields k v)
  | Json.obj fields, k :: k2 :: rest, v =>
    match fields.find k with
    | some child =>
      Json.obj (insertJsonField fields k (jsonbSet child (k2 :: rest) v))
    | none => Json.obj fields
  | target, _ :: _, _ => target

/-- The `for modification in …` loop of apply_automation_modifications.
`cur` is the locally tracked `current_phase_query`; a MoveToPhase whose
target is not in the workflow's phases is skipped, otherwise the case row is
updated, one history row is inserted and `cur` is chained to the new phase.
A SetField must root at `data`; its remainder is joined with dots into a
single jsonb path element. -/
def applyLoop (phases : List String) (label : String) (now : Nat) :
    List CaseModification → TxState → String → TxState × String
  | [], st, cur => (st, cur)
  | (.MoveToPhase phase) :: rest, st, cur =>
    if phase ∈ phases then
      applyLoop phases label now rest
        { c := { st.c with
            current_phase := phase
            previous_phase := some cur
            phase_entered_at := now
            updated_at := now }
          history := st.history ++
            [⟨some cur, phase, some (label ++ " automation"), some "system"⟩] }
        phase
    else applyLoop phases label now rest st cur
  | (.SetField field value) :: rest, st, cur =>
    match splitOnChar '.' field with
    | "data" :: pathParts =>
      if pathParts.isEmpty then applyLoop phases label now rest st cur
      else
        applyLoop phases label now rest
          { st with c := { st.c with
              data := jsonbSet st.c.data
                [String.intercalate "." pathParts] value
              updated_at := now } }
          cur
    | _ => applyLoop phases label now rest st cur

/-- apply_automation_modifications: one transaction that reads the case's
current phase and folds the modifications over the state (the reliable-DB
model: begin/commit and the individual statements succeed). -/
def apply_automation_modifications (wf_phases : List String) (label : String)
    (now : Nat) (mods : List CaseModification) (st : TxState) : TxState :=
  (applyLoop wf_phases label now mods st st.c.current_phase).1

/-- Specification-side: the history rows the loop appends, including the
chaining of the in-flight phase. -/
def appendedRows (phases : List String) (label : String) :
    List CaseModification → String → List HistoryRow
  | [], _ => []
  | (.MoveToPhase p) :: rest, cur =>
    if p ∈ phases then
      ⟨some cur, p, some (label ++ " automation"), some "system"⟩ ::
        appendedRows phases label rest p
    else appendedRows phases label rest cur
  | (.SetField _ _) :: rest, cur => appendedRows phases label rest cur

/-- Specification-side: the number of MoveToPhase modifications whose phase
is in the workflow. -/
def countAppliedMoves (phases : List String) : List CaseModification → Nat
  | [] => 0
  | (.MoveToPhase p) :: rest =>
    (if p ∈ phases then 1 else 0) + countAppliedMoves phases rest
  | (.SetField _ _) :: rest => countAppliedMoves phases rest

theorem applyLoop_history_eq (phases : List String) (label : String)
    (now : Nat) : ∀ mods st cur,
    (applyLoop phases label now mods st cur).1.history =
      st.history ++ appendedRows phases label mods cur := by
  intro mods
  induction mods with
  | nil => intro st cur; simp [applyLoop, appendedRows]
  | cons m rest ih =>
    intro st cur
    cases m with
    | MoveToPhase p =>
      by_cases hp : p ∈ phases
      · simp [applyLoop, hp, appendedRows, ih, List.append_assoc]
      · simp [applyLoop, hp, appendedRows, ih]
    | SetField f v =>
      simp only [applyLoop, appendedRows]
      split
      · split
        · exact ih st cur
        · exact ih _ cur
      · exact ih st cur

theorem appendedRows_length (phases : List String) (label : String) :
    ∀ mods cur, (appendedRows phases label mods cur).length =
      countAppliedMoves phases mods := by
  intro mods
  induction mods with
  | nil => intro cur; simp [appendedRows, countAppliedMoves]
  | cons m rest ih =>
    intro cur
    cases m with
    | MoveToPhase p =>
      by_cases hp : p ∈ phases <;>
        simp [appendedRows, countAppliedMoves, hp, ih, Nat.add_comm]
    | SetField f v => simp [appendedRows, countAppliedMoves, ih]

theorem appendedRows_mem (phases : List String) (label : String) :
    ∀ mods cur row, row ∈ appendedRows phases label mods cur →
      row.reason = some (label ++ " automation") ∧
      row.triggered_by = some "system" := by
  intro mods
  induction mods with
  | nil => intro cur row h; exact absurd h (by simp [appendedRows])
  | cons m rest ih =>
    intro cur row h
    cases m with
    | MoveToPhase p =>
      by_cases hp : p ∈ phases
      · simp only [appendedRows, if_pos hp] at h
        rcases List.mem_cons.mp h with rfl | h2
        · exact ⟨rfl, rfl⟩
        · exact ih p row h2
      · simp only [appendedRows, if_neg hp] at h
        exact ih cur row h
    | SetField f v =>
      simp only [appendedRows] at h
      exact ih cur row h

/-- C2: in the case-state transaction, a MoveToPhase with an unknown phase
is skipped with no state change and no history row; an applied MoveToPhase
sets current_phase, sets previous_phase to the locally chained in-flight
phase, refreshes both timestamps to now, appends exactly one history row
with reason `<label> automation` and triggered_by `system`, and chains the
local phase so the rest of the batch sees the new value; over the whole
batch, exactly one row is appended per applied move, all with that reason
and triggered_by. -/
theorem C2_apply_modifications (phases : List String) (label : String)
    (now : Nat) :
    (∀ rest st cur phase, phase ∉ phases →
      applyLoop phases label now (.MoveToPhase phase :: rest) st cur =
        applyLoop phases label now rest st cur)
  ∧ (∀ rest st cur phase, phase ∈ phases →
      applyLoop phases label now (.MoveToPhase phase :: rest) st cur =
        applyLoop phases label now rest
          { c := { st.c with
              current_phase := phase
              previous_phase := some cur
              phase_entered_at := now
              updated_at := now }
            history := st.history ++
              [⟨some cur, phase, some (label ++ " automation"),
                some "system"⟩] }
          phase)
  ∧ (∀ mods st cur,
      ((applyLoop phases label now mods st cur).1.history).length =
        st.history.length + countAppliedMoves phases mods)
  ∧ (∀ mods st cur row,
      row ∈ ((applyLoop phases label now mods st cur).1.history).drop
        st.history.length →
      row.reason = some (label ++ " automation") ∧
      row.triggered_by = some "system") := by
  refine ⟨?_, ?_, ?_, ?_⟩
  · intro rest st cur phase h
    simp [applyLoop, h]
  · intro rest st cur phase h
    simp [applyLoop, h]
  · intro mods st cur
    rw [applyLoop_history_eq]
    simp [appendedRows_length]
  · intro mods st cur row h
    rw [applyLoop_history_eq] at h
    rw [List.drop_left] at h
    exact appendedRows_mem phases label mods cur row h

/-- A one-row transaction state for the C2 witness. -/
def txEx2 : TxState := ⟨caseEx7, []⟩

/-- Witness for C2: applying `MoveToPhase Approved` in workflow phases
[Review, Approved] chains the phase and appends the one history row. -/
theorem C2_apply_modifications_witness :
    applyLoop ["Review", "Approved"] "on_enter" 5
      [.MoveToPhase "Approved"] txEx2 "Review" =
    ({ c := { txEx2.c with
         current_phase := "Approved"
         previous_phase := some "Review"
         phase_entered_at := 5
         updated_at := 5 }
       history := [⟨some "Review", "Approved", some "on_enter automation",
                    some "system"⟩] }, "Approved") := by
  have h := (C2_apply_modifications ["Review", "Approved"] "on_enter" 5).2.1
    [] txEx2 "Review" "Approved" (by simp)
  rw [h]
  rfl

/-! ## Workflow model and move-case orchestrator
(src/models/workflow.rs, src/api/cases/move_case.rs,
src/api/cases/automation_handler.rs::execute_and_apply_automations) -/

structure Workflow where
  id : String
  name : String
  phases : List String
  initial_phase : String
  webhook_url : Option String
  active : Bool
  automations : Option WorkflowAutomations

/-- Workflow::has_phase. -/
def Workflow.has_phase (wf : Workflow) (phase : String) : Bool :=
  wf.phases.contains phase

/-- The PUT /cases/{id}/move payload. -/
structure MoveCase where
  to_phase : String
  reason : Option String
  triggered_by : Option String

/-- Ambient inputs of a move: the webhook oracle, the clock and the
WEBHOOK_ON_CASE_MOVE toggle. -/
structure MoveEnv where
  send : String → String → Json → Except String Json
  now : Nat
  webhook_on_move : Bool

/-- The repository state a move touches: the addressed case row (none:
404), its workflow row (none: 404) and the case's history rows. -/
structure RepoState where
  case? : Option Case
  workflow? : Option Workflow
  history : List HistoryRow

/-- The observable outcome of move_case: the HTTP status, the final
repository state, which automation batches were executed (labels in order),
and whether the case.moved event / the configured case webhook were
spawned. -/
structure MoveResult where
  status : Nat
  repo : RepoState
  automationBatches : List String
  movedEventEmitted : Bool
  caseWebhookSpawned : Bool

/-- execute_and_apply_automations: empty batch returns Ok(None) without
invoking the executor; a successful batch with modifications applies them in
one transaction and re-reads the case; an executor error is logged and
swallowed (Ok(None)): the state and case are returned unchanged and no
error response is produced.  The returned Bool records whether the executor
ran.  (Reliable-DB model: begin/commit, the statements and the re-read
succeed; the 500 paths of the source are all and only DB failures.) -/
def execAndApplyAutomations (env : MoveEnv) (st : RepoState) (wf : Workflow)
    (c : Case) (from_phase : Option String) (autos : List PhaseAutomation)
    (label : String) : RepoState × Case × Bool :=
  if autos.isEmpty then (st, c, false)
  else
    match execute_automations env.send autos c from_phase with
    | .ok mods =>
      if mods.isEmpty then (st, c, true)
      else
        match st.case? with
        | some dbCase =>
          let tx := apply_automation_modifications wf.phases label env.now
            mods ⟨dbCase, st.history⟩
          ({ st with case? := some tx.c, history := tx.history }, tx.c, true)
        | none => (st, c, true)
    | .error _ => (st, c, true)

/-- move_case: 404 on a missing case or workflow, 400 on a target phase not
in the workflow, a no-op 200 when the case is already in the target phase;
otherwise persist the phase change, append the caller's history row, run
on_exit then on_enter automations, and spawn the case.moved event and
(when toggled on and configured) the case webhook. -/
def move_case (env : MoveEnv) (st : RepoState) (payload : MoveCase) :
    MoveResult :=
  match st.case? with
  | none => ⟨404, st, [], false, false⟩
  | some case0 =>
    match st.workflow? with
    | none => ⟨404, st, [], false, false⟩
    | some wf =>
      if ¬ wf.has_phase payload.to_phase then ⟨400, st, [], false, false⟩
      else if case0.current_phase = payload.to_phase then
        ⟨200, st, [], false, false⟩
      else
        let from_phase := case0.current_phase
        let case1 := case0.move_to_phase payload.to_phase env.now
        let st1 : RepoState := { st with
          case? := some case1
          history := st.history ++
            [⟨some from_phase, payload.to_phase, payload.reason,
              payload.triggered_by⟩] }
        match wf.automations with
        | none => ⟨200, st1, [], true,
            env.webhook_on_move && wf.webhook_url.isSome⟩
        | some cfg =>
          let r1 := execAndApplyAutomations env st1 wf case1
            (some from_phase) (cfg.get_on_exit_automations from_phase)
            "on_exit"
          let case2 := r1.2.1
          let r2 := execAndApplyAutomations env r1.1 wf case2
            (some from_phase)
            (cfg.get_on_enter_automations case2.current_phase) "on_enter"
          ⟨200, r2.1,
            (if r1.2.2 then ["on_exit"] else []) ++
              (if r2.2.2 then ["on_enter"] else []),
            true, env.webhook_on_move && wf.webhook_url.isSome⟩

/-! ### No-op move (C9) -/

/-- C9: a move whose target equals the case's current phase (which, by the
data-model invariant, lies in the workflow's phases) returns a 200 success
and changes nothing: the repository state (case row with its updated_at,
previous_phase and phase_entered_at, and the history) is untouched, no
automation batch runs, and no event or webhook is spawned. -/
theorem C9_noop_move (env : MoveEnv) (st : RepoState) (payload : MoveCase)
    (c : Case) (wf : Workflow)
    (hc : st.case? = some c) (hw : st.workflow? = some wf)
    (hinv : c.current_phase ∈ wf.phases)
    (heq : payload.to_phase = c.current_phase) :
    move_case env st payload = ⟨200, st, [], false, false⟩ := by
  have hhas : wf.has_phase c.current_phase = true := by
    simp only [Workflow.has_phase]
    exact List.elem_eq_true_of_mem hinv
  have hhas2 : wf.has_phase payload.to_phase = true := by
    rw [heq]
    exact hhas
  simp only [move_case, hc, hw, hhas2, heq]
  simp [hhas]

/-- A workflow and an already-in-place case for the C9 witness. -/
def wfEx9 : Workflow := ⟨"w9", "wf9", ["A", "B"], "A", none, true, none⟩

def caseEx9 : Case :=
  ⟨"c9", "w9", "A", none, Json.obj .nil, .Active, none, 0, 3, none, 2⟩

def stEx9 : RepoState := ⟨some caseEx9, some wfEx9, []⟩

def envEx9 : MoveEnv := ⟨sendOkEx, 99, true⟩

/-- Witness for C9: moving to the phase the case is already in is a
complete no-op with a 200. -/
theorem C9_noop_move_witness :
    move_case envEx9 stEx9 ⟨"A", none, none⟩ = ⟨200, stEx9, [], false, false⟩ :=
  C9_noop_move envEx9 stEx9 ⟨"A", none, none⟩ caseEx9 wfEx9 rfl rfl
    (by decide) rfl

/-! ### Automation-batch failure during a transition (C1) -/

theorem execute_automations_nil (send : String → String → Json → Except String Json)
    (c : Case) (fp : Option String) :
    execute_automations send [] c fp = .ok [] := rfl

theorem execAndApply_nil (env : MoveEnv) (st : RepoState) (wf : Workflow)
    (c : Case) (fp : Option String) (label : String) :
    execAndApplyAutomations env st wf c fp [] label = (st, c, false) := rfl

/-- The swallow: when the automation batch itself errors,
execute_and_apply_automations logs, returns Ok(None) and leaves the state
and the case untouched — it does not produce an error response. -/
theorem execAndApply_swallow (env : MoveEnv) (st : RepoState) (wf : Workflow)
    (c : Case) (fp : Option String) (autos : List PhaseAutomation)
    (label : String) (e : String)
    (hfail : execute_automations env.send autos c fp = .error e) :
    execAndApplyAutomations env st wf c fp autos label = (st, c, true) := by
  have hne : autos.isEmpty = false := by
    cases autos with
    | nil =>
      rw [execute_automations_nil] at hfail
      exact absurd hfail (by simp)
    | cons a t => rfl
  simp only [execAndApplyAutomations, hne, hfail]
  simp

/-- C1 (amended): an automation-batch failure during a move is logged and
swallowed, not converted into a 500: execute_and_apply_automations returns
success with the state and case unchanged, and the move itself still
responds 200 and still spawns the case.moved event (the phase change was
persisted before the automations ran).  Only DB transaction failures inside
apply_automation_modifications produce a 500. -/
theorem C1_batch_failure_swallowed :
    (∀ (env : MoveEnv) (st : RepoState) (wf : Workflow) (c : Case)
        (fp : Option String) (autos : List PhaseAutomation) (label : String)
        (e : String),
      execute_automations env.send autos c fp = .error e →
      execAndApplyAutomations env st wf c fp autos label = (st, c, true))
  ∧ (∀ (env : MoveEnv) (st : RepoState) (payload : MoveCase) (c : Case)
        (wf : Workflow),
      st.case? = some c → st.workflow? = some wf →
      wf.has_phase payload.to_phase = true →
      ¬ c.current_phase = payload.to_phase →
      (move_case env st payload).status = 200 ∧
      (move_case env st payload).movedEventEmitted = true) := by
  constructor
  · intro env st wf c fp autos label e hfail
    exact execAndApply_swallow env st wf c fp autos label e hfail
  · intro env st payload c wf hc hw hhas hne
    simp only [move_case, hc, hw, hhas]
    rw [if_neg (by simp)]
    rw [if_neg hne]
    cases hcfg : wf.automations with
    | none => exact ⟨rfl, rfl⟩
    | some cfg => exact ⟨rfl, rfl⟩

/-- An on_enter automation on phase B: one webhook with retry (2 attempts)
and on_error = stop. -/
def autoEx1 : PhaseAutomation :=
  ⟨.OnEnter, "B",
    [.Webhook none none "http://hook" none none none none ⟨true, 2, 10⟩ .Stop]⟩

def wfEx1 : Workflow :=
  ⟨"w1", "wf1", ["A", "B"], "A", none, true, some ⟨[autoEx1]⟩⟩

def caseEx1 : Case :=
  ⟨"c1x", "w1", "A", none, Json.obj .nil, .Active, none, 0, 0, none, 0⟩

/-- An oracle on which every webhook call fails (HTTP 500). -/
def sendFailEx : String → String → Json → Except String Json :=
  fun _ _ _ => .error "HTTP 500 - boom"

def envEx1 : MoveEnv := ⟨sendFailEx, 7, true⟩

def stEx1 : RepoState := ⟨some caseEx1, some wfEx1, []⟩

def payloadEx1 : MoveCase := ⟨"B", some "manual", some "tester"⟩

/-- C1 counterexample: moving case c1x from A to B, where the on_enter
automation batch fails after retry exhaustion of a stop-webhook, still
returns 200 (not 500), leaves the case at the already-persisted target
phase B (not unchanged at A), and still emits the case.moved event — the
claim's 500-and-abort behaviour does not occur. -/
theorem C1_counterexample :
    (move_case envEx1 stEx1 payloadEx1).status = 200 ∧
    ((move_case envEx1 stEx1 payloadEx1).repo.case?.map Case.current_phase) =
      some "B" ∧
    (move_case envEx1 stEx1 payloadEx1).movedEventEmitted = true := by
  have hauto : execute_automations envEx1.send [autoEx1]
      (caseEx1.move_to_phase payloadEx1.to_phase envEx1.now)
      (some caseEx1.current_phase) =
      .error "Action action_0 failed: HTTP 500 - boom" := by
    simp only [execute_automations, executeAutomationsGo, autoEx1]
    rw [execute_actions.eq_2, execute_action.eq_1]
    rfl
  have hmove : move_case envEx1 stEx1 payloadEx1 =
      ⟨200,
        ⟨some (caseEx1.move_to_phase "B" 7), some wfEx1,
          [⟨some "A", "B", some "manual", some "tester"⟩]⟩,
        ["on_enter"], true, false⟩ := by
    have h1 : stEx1.case? = some caseEx1 := rfl
    have h2 : stEx1.workflow? = some wfEx1 := rfl
    have h3 : wfEx1.has_phase payloadEx1.to_phase = true := by decide
    have h4 : ¬ caseEx1.current_phase = payloadEx1.to_phase := by decide
    have h5 : wfEx1.automations = some ⟨[autoEx1]⟩ := rfl
    simp only [move_case, h1, h2, h3, h5]
    rw [if_neg (by simp)]
    rw [if_neg h4]
    have h6 : WorkflowAutomations.get_on_exit_automations ⟨[autoEx1]⟩
        caseEx1.current_phase = [] := rfl
    simp only [h6, execAndApply_nil]
    have h7 : WorkflowAutomations.get_on_enter_automations ⟨[autoEx1]⟩
        ((caseEx1.move_to_phase payloadEx1.to_phase envEx1.now).current_phase) =
        [autoEx1] := rfl
    simp only [h7]
    rw [execAndApply_swallow _ _ _ _ _ _ _ _ hauto]
    rfl
  rw [hmove]
  exact ⟨rfl, rfl, rfl⟩

/-- Witness for C1 (amended): the failing batch is swallowed at a concrete
input: execute_and_apply_automations returns the state and case unchanged
with no error. -/
theorem C1_batch_failure_swallowed_witness :
    execAndApplyAutomations envEx1 stEx1 wfEx1 caseEx1 (some "A") [autoEx1]
      "on_enter" = (stEx1, caseEx1, true) := by
  have hauto2 : execute_automations envEx1.send [autoEx1] caseEx1 (some "A") =
      .error "Action action_0 failed: HTTP 500 - boom" := by
    simp only [execute_automations, executeAutomationsGo, autoEx1]
    rw [execute_actions.eq_2, execute_action.eq_1]
    rfl
  exact C1_batch_failure_swallowed.1 envEx1 stEx1 wfEx1 caseEx1 (some "A")
    [autoEx1] "on_enter" _ hauto2
